import Mathlib

/-!
Verification of the cricket/IPL odds scripts.

This file gives a shallow embedding of the three Python source files
(`odds.py`, `cricket_odds3.py`, `cricket_odds4.py`) and proves or refutes
the behavioural claims about them.

Conventions of the embedding:
* Python floats are modelled as exact rationals (`ℚ`); the numeric
  comparisons the claims are about (`> 0.60`, `> 1.0`, averages) are exact
  at every input that appears in the claims.
* Python strings are `String`, or `List Char` where character-level
  parsing is the point (the odds-format parser).
* A Python function that can raise is modelled in `Except Unit`; a Python
  function that can return `None` is modelled in `Option`.
* The mutable `monitoring_markets` dictionary of `cricket_odds3.main` is
  modelled as an association list threaded through explicit state-passing
  functions (`scanStep`/`initialScan` for the initial scan loop,
  `pollCycle` for one iteration of the `while monitoring_markets` loop).
-/

instance {ε α : Type _} [DecidableEq ε] [DecidableEq α] : DecidableEq (Except ε α) :=
  fun x y =>
    match x, y with
    | .ok a, .ok b =>
      if h : a = b then .isTrue (by rw [h])
      else .isFalse (fun hh => h (Except.ok.inj hh))
    | .ok _, .error _ => .isFalse (fun hh => Except.noConfusion hh)
    | .error _, .ok _ => .isFalse (fun hh => Except.noConfusion hh)
    | .error a, .error b =>
      if h : a = b then .isTrue (by rw [h])
      else .isFalse (fun hh => h (Except.error.inj hh))

namespace OddsPy

/-! ## `odds.py`: `IPLOddsAnalyzer.convert_to_decimal_odds` and friends -/

/-- Numeric value of a digit string (the semantics of Python's `int`/`float`
digit parsing), most significant digit first. -/
def val (s : List Char) : ℕ :=
  s.foldl (fun acc c => 10 * acc + (c.toNat - 48)) 0

/-- After the first character, the regex `^\d+\.\d+$` accepts: more digits,
then a dot, then one or more digits. -/
def matchRest (s : List Char) : Bool :=
  match s with
  | [] => false
  | c :: rest =>
    if c = '.' then !rest.isEmpty && rest.all Char.isDigit
    else c.isDigit && matchRest rest

/-- `re.match(r'^\d+\.\d+$', odds_str)` of `convert_to_decimal_odds`. -/
def matchesDecimal (s : List Char) : Bool :=
  match s with
  | [] => false
  | c :: rest => c.isDigit && matchRest rest

/-- Value denoted by a string accepted by `^\d+\.\d+$` (Python's
`float(odds_str)`), split at the dot. -/
def decValue (s : List Char) : ℚ :=
  let a := s.takeWhile (· != '.')
  let b := (s.dropWhile (· != '.')).drop 1
  (val a : ℚ) + (val b : ℚ) / 10 ^ b.length

/-- Python's `int` applied to a string: optional sign then digits;
`none` models a raised `ValueError`. -/
def parsePyInt (s : List Char) : Option ℤ :=
  match s with
  | [] => none
  | c :: rest =>
    if c = '-' then
      if !rest.isEmpty && rest.all Char.isDigit then some (-(val rest : ℤ)) else none
    else if c = '+' then
      if !rest.isEmpty && rest.all Char.isDigit then some (val rest) else none
    else
      if (c :: rest).all Char.isDigit then some (val (c :: rest)) else none

/-- `IPLOddsAnalyzer.convert_to_decimal_odds` (odds.py lines 50-68).
`Except.error ()` models an uncaught exception (`ValueError` from `int`,
unpacking error on a string with two or more slashes, `ZeroDivisionError`);
`Except.ok none` is the function returning `None`. -/
def convert_to_decimal_odds (s : List Char) : Except Unit (Option ℚ) :=
  if matchesDecimal s then .ok (some (decValue s))
  else if s.any (· == '/') then
    let a := s.takeWhile (· != '/')
    let b := (s.dropWhile (· != '/')).drop 1
    if b.any (· == '/') then .error ()
    else
      match parsePyInt a, parsePyInt b with
      | some n, some d =>
        if d = 0 then .error () else .ok (some (1 + (n : ℚ) / (d : ℚ)))
      | _, _ => .error ()
  else if s.head? = some '+' then
    match parsePyInt (s.drop 1) with
    | some v => .ok (some (1 + (v : ℚ) / 100))
    | none => .error ()
  else if s.head? = some '-' then
    match parsePyInt (s.drop 1) with
    | some v => if v = 0 then .error () else .ok (some (1 + 100 / (v : ℚ)))
    | none => .error ()
  else .ok none

/-- `IPLOddsAnalyzer.calculate_implied_probability` (odds.py lines 70-72):
`return 1 / decimal_odds if decimal_odds else None`.  The argument is
`none` when the odds failed to convert; `0` and `none` are the falsy
values of the Python expression. -/
def calculate_implied_probability (decimal_odds : Option ℚ) : Option ℚ :=
  match decimal_odds with
  | none => none
  | some d => if d = 0 then none else some (1 / d)

/-! ## `odds.py`: `IPLOddsAnalyzer.analyze_odds` -/

/-- One row of `self.odds_data`. -/
structure OddsQuote where
  platform : String
  team_a_odds : List Char
  team_b_odds : List Char
  deriving DecidableEq

/-- Round-half-to-even to an integer (the rounding of Python's `round`). -/
def roundHalfEven (q : ℚ) : ℤ :=
  if q - ⌊q⌋ < 1 / 2 then ⌊q⌋
  else if 1 / 2 < q - ⌊q⌋ then ⌊q⌋ + 1
  else if Even ⌊q⌋ then ⌊q⌋ else ⌊q⌋ + 1

/-- Python's `round(q, 2)`. -/
def round2 (q : ℚ) : ℚ := (roundHalfEven (100 * q) : ℚ) / 100

/-- Mean of a column that may hold missing values: pandas' `Series.mean`
skips missing entries and is `NaN` (modelled `none`) on an all-missing
column. -/
def meanOpt (xs : List (Option ℚ)) : Option ℚ :=
  let v := xs.reduceOption
  if v.isEmpty then none else some (v.sum / v.length)

/-- `df['team_x_odds'].apply(self.convert_to_decimal_odds)`: an exception in
any row aborts the whole apply. -/
def convCol (f : OddsQuote → List Char) : List OddsQuote →
    Except Unit (List (Option ℚ))
  | [] => .ok []
  | r :: rest =>
    match convert_to_decimal_odds (f r), convCol f rest with
    | .ok v, .ok vs => .ok (v :: vs)
    | .error e, _ => .error e
    | .ok _, .error e => .error e

/-- The two average implied probabilities `avg_prob_a`, `avg_prob_b`
computed by `analyze_odds` (the `a` column is converted first, as in the
source; an exception in either column propagates). -/
def avgProbs (data : List OddsQuote) : Except Unit (Option ℚ × Option ℚ) :=
  match convCol (fun q => q.team_a_odds) data,
      convCol (fun q => q.team_b_odds) data with
  | .ok la, .ok lb =>
    .ok (meanOpt (la.map calculate_implied_probability),
         meanOpt (lb.map calculate_implied_probability))
  | .error e, _ => .error e
  | .ok _, .error e => .error e

/-- The dictionary returned by `analyze_odds` (the fields the claims are
about; `matchLabel` is the `'match'` key). -/
structure AnalysisResult where
  matchLabel : String
  platforms_analyzed : ℕ
  team_a : String
  team_a_win_pct : Option ℚ
  team_b : String
  team_b_win_pct : Option ℚ
  predicted_winner : String
  win_probability : Option ℚ
  deriving DecidableEq

/-- `IPLOddsAnalyzer.analyze_odds` (odds.py lines 224-273).  `.ok none` is
the early `return None` on empty data; a float comparison with `NaN`
(`none`) is false, as in Python. -/
def analyze_odds (team_a team_b : String) (data : List OddsQuote) :
    Except Unit (Option AnalysisResult) :=
  if data.isEmpty then .ok none
  else
    match avgProbs data with
    | .error e => .error e
    | .ok (avgA, avgB) =>
      let pctA := avgA.map (fun a => a * 100)
      let pctB := avgB.map (fun b => b * 100)
      let aWins : Bool :=
        match avgA, avgB with
        | some a, some b => decide (b < a)
        | _, _ => false
      let winPct := if aWins then pctA else pctB
      .ok (some
        { matchLabel := team_a ++ " vs " ++ team_b
          platforms_analyzed := data.length
          team_a := team_a
          team_a_win_pct := pctA.map round2
          team_b := team_b
          team_b_win_pct := pctB.map round2
          predicted_winner := if aWins then team_a else team_b
          win_probability := winPct.map round2 })

end OddsPy

namespace Monitor

/-- A market record after the JSON parsing steps of `cricket_odds3.main`:
`outcomes`/`outcomePrices` hold the parsed lists ( `[]` is what the code
falls back to when the field is absent or fails to parse); `slug` and
`eventSlug` take part in `find_match` text matching. -/
structure Market where
  id : String
  question : String
  slug : String
  eventSlug : String
  gameStartTime : String
  outcomes : List String
  outcomePrices : List ℚ
  deriving DecidableEq

/-- The `market_text` string of `find_match` and the keyword filter:
`" ".join([question, slug, eventSlug]).lower()`. -/
def marketText (m : Market) : String :=
  (String.intercalate " " [m.question, m.slug, m.eventSlug]).toLower

/-- Does `n` occur as a contiguous run inside `h`? -/
def infixOf (n : List Char) (h : List Char) : Bool :=
  match h with
  | [] => n.isEmpty
  | c :: rest => List.isPrefixOf n (c :: rest) || infixOf n rest

/-- Substring test, Python's `needle in hay` on strings. -/
def substrOf (needle hay : String) : Bool :=
  infixOf needle.toList hay.toList

/-- One iteration of the `find_match` loop over the accumulated
`matching_markets` (`st` is the already-lowered search term): append the
market when the term occurs in its text; additionally, when the term
contains `" vs "`, append it (if not already present) when both trimmed
halves occur. -/
def findStep (st : String) (acc : List Market) (m : Market) : List Market :=
  let acc1 := if substrOf st (marketText m) then acc ++ [m] else acc
  if substrOf " vs " st then
    if substrOf ((st.splitOn " vs ").getD 0 "").trim (marketText m) &&
        substrOf ((st.splitOn " vs ").getD 1 "").trim (marketText m) then
      if m ∈ acc1 then acc1 else acc1 ++ [m]
    else acc1
  else acc1

/-- `find_match` (cricket_odds3.py lines 264-290, identical in
cricket_odds4.py lines 199-225). -/
def find_match (markets : List Market) (search_term : String) : List Market :=
  markets.foldl (findStep search_term.toLower) []

/-- The search-term filtering step of `main` (cricket_odds3.py lines
424-432, cricket_odds4.py lines 359-367): when a term is supplied but
matches nothing, fall back to the unfiltered list. -/
def selectMarkets (cricket_markets : List Market) (search_term : Option String) :
    List Market :=
  match search_term with
  | none => cricket_markets
  | some t =>
    let matching := find_match cricket_markets t
    if matching.isEmpty then cricket_markets else matching

/-- Does one Python iteration of `find_match` append this market (by either
of its two conditions)? -/
def matchesTerm (search_term : String) (m : Market) : Bool :=
  let st := search_term.toLower
  let text := marketText m
  substrOf st text ||
    (substrOf " vs " st &&
      substrOf ((st.splitOn " vs ").getD 0 "").trim text &&
      substrOf ((st.splitOn " vs ").getD 1 "").trim text)

/-! ## The threshold monitor of `cricket_odds3.main` -/

/-- The literal threshold of the `price > 0.60` comparisons (lines 496 and
582); the user-facing text says ">70%". -/
def threshold : ℚ := 0.60

/-- The guard `outcomes and outcome_prices and len(outcomes) ==
len(outcome_prices)` that both probability checks sit behind. -/
def wellFormed (outcomes : List String) (prices : List ℚ) : Bool :=
  !outcomes.isEmpty && !prices.isEmpty && outcomes.length == prices.length

/-- `high_prob_found` / `still_high_prob`: the guard above, then `any price
> 0.60`. -/
def highProb (outcomes : List String) (prices : List ℚ) : Bool :=
  wellFormed outcomes prices && prices.any (fun p => threshold < p)

/-- The probability breakdown text (`probabilities_text`,
`latest_probabilities_text`), modelled as the outcome/price pairs the text
enumerates. -/
def breakdown (outcomes : List String) (prices : List ℚ) : List (String × ℚ) :=
  List.zip outcomes prices

inductive NotifKind where
  | alert
  | resolved
  deriving DecidableEq

/-- A Discord webhook message (`send_discord_alert` payload), modelled by
the data interpolated into it.  The code builds only two message shapes:
the initial "High Probability Alert" (kind `alert`, lines 502-507) and the
"Probability Resolved" message (kind `resolved`, lines 595-600); the
still-high branch re-sends a previously built alert message verbatim
(line 589). -/
structure Notification where
  kind : NotifKind
  marketId : String
  question : String
  gameStartTime : Option String
  currentBreakdown : Option (List (String × ℚ))
  initialBreakdown : Option (List (String × ℚ))
  deriving DecidableEq

/-- The value stored in `monitoring_markets[market_id]` (lines 511-515). -/
structure WatchEntry where
  question : String
  outcomes : List String
  initialBreakdown : List (String × ℚ)
  deriving DecidableEq

/-- The initial "High Probability Alert" message for a market. -/
def alertFor (m : Market) : Notification :=
  { kind := .alert
    marketId := m.id
    question := m.question
    gameStartTime := some m.gameStartTime
    currentBreakdown := some (breakdown m.outcomes m.outcomePrices)
    initialBreakdown := none }

/-- One iteration of the initial scan loop (lines 451-515) over the state
(watch set, messages sent so far): skip an id already being monitored,
else alert and start monitoring when some parsed price exceeds the
threshold. -/
def scanStep (acc : List (String × WatchEntry) × List Notification) (m : Market) :
    List (String × WatchEntry) × List Notification :=
  if (acc.1.lookup m.id).isSome then acc
  else if highProb m.outcomes m.outcomePrices then
    (acc.1 ++ [(m.id,
        { question := m.question
          outcomes := m.outcomes
          initialBreakdown := breakdown m.outcomes m.outcomePrices })],
      acc.2 ++ [alertFor m])
  else acc

/-- The whole initial scan: the watch set and the alerts sent, in order. -/
def initialScan (markets : List Market) :
    List (String × WatchEntry) × List Notification :=
  markets.foldl scanStep ([], [])

/-- The "Probability Resolved" message (lines 595-600): latest question,
the alert-time breakdown stored in the watch entry, and the latest
breakdown (`none` models the `"N/A"` placeholder used when the re-fetched
record is ill-formed). -/
def resolvedFor (id : String) (e : WatchEntry) (m : Market) : Notification :=
  { kind := .resolved
    marketId := id
    question := m.question
    gameStartTime := none
    currentBreakdown :=
      if wellFormed m.outcomes m.outcomePrices then
        some (breakdown m.outcomes m.outcomePrices)
      else none
    initialBreakdown := some e.initialBreakdown }

/-- One pass of the `while monitoring_markets` loop body (lines 521-602)
over the snapshot of watched entries.  `fetch` is `get_market_details`
(`none` = fetch failure); `stale` is the value of the leaked
`alert_message` variable, which is what line 589 re-sends in the
still-high branch.  Returns the watch set after the pass and the messages
sent during it in order, each tagged with the id of the iteration that
sent it. -/
def pollCycle (fetch : String → Option Market) (stale : Notification) :
    List (String × WatchEntry) →
      List (String × WatchEntry) × List (String × Notification)
  | [] => ([], [])
  | (id, e) :: rest =>
    let tail := pollCycle fetch stale rest
    match fetch id with
    | none => ((id, e) :: tail.1, tail.2)
    | some m =>
      if highProb m.outcomes m.outcomePrices then
        ((id, e) :: tail.1, (id, stale) :: tail.2)
      else
        (tail.1, (id, resolvedFor id e m) :: tail.2)

end Monitor

/-! ## Concrete inputs used by the example parts of the claims and by the
witnesses -/

namespace OddsPy

/-- A batch with identical decimal odds on both sides (ties the averages). -/
def dataEx : List OddsQuote :=
  [{ platform := "Sample Bookmaker", team_a_odds := "2.0".toList,
     team_b_odds := "2.0".toList }]

/-- The result `analyze_odds "A" "B" dataEx` produces. -/
def rEx : AnalysisResult :=
  { matchLabel := "A vs B", platforms_analyzed := 1, team_a := "A",
    team_a_win_pct := some 50, team_b := "B", team_b_win_pct := some 50,
    predicted_winner := "B", win_probability := some 50 }

/-- A quote that converts normally on both sides. -/
def qEx1 : OddsQuote :=
  { platform := "S1", team_a_odds := "1.90".toList, team_b_odds := "2.10".toList }

/-- A quote whose odds strings match no recognized format. -/
def qEx2 : OddsQuote :=
  { platform := "S2", team_a_odds := "abc".toList, team_b_odds := "xyz".toList }

end OddsPy

namespace Monitor

/-- Market with outcome prices `[0.65, 0.35]` (first market of the C1
example). -/
def mEx1 : Market :=
  { id := "mkt1", question := "Q1", slug := "q1-slug", eventSlug := "ev1",
    gameStartTime := "2025-04-01T14:00:00Z", outcomes := ["TeamA", "TeamB"],
    outcomePrices := [0.65, 0.35] }

/-- Market with outcome prices `[0.55, 0.45]` (second market of the C1
example). -/
def mEx2 : Market :=
  { id := "mkt2", question := "Q2", slug := "q2-slug", eventSlug := "ev2",
    gameStartTime := "2025-04-01T15:00:00Z", outcomes := ["TeamC", "TeamD"],
    outcomePrices := [0.55, 0.45] }

/-- A second high-probability market, alerted after `mEx1` in the initial
scan (so its alert is the final value of `alert_message`). -/
def mEx3 : Market :=
  { id := "mkt3", question := "Q3", slug := "q3-slug", eventSlug := "ev3",
    gameStartTime := "2025-04-01T16:00:00Z", outcomes := ["TeamE", "TeamF"],
    outcomePrices := [0.70, 0.30] }

/-- A re-fetch of `mEx1` whose prices moved to `[0.66, 0.34]` — still above
the threshold. -/
def mEx1Latest : Market :=
  { id := "mkt1", question := "Q1", slug := "q1-slug", eventSlug := "ev1",
    gameStartTime := "2025-04-01T14:00:00Z", outcomes := ["TeamA", "TeamB"],
    outcomePrices := [0.66, 0.34] }

/-- `get_market_details` succeeding for `mkt1` only. -/
def fetchEx : String → Option Market :=
  fun id => if id = "mkt1" then some mEx1Latest else none

/-- A watch entry as created by the initial scan for a market that alerted
at `[0.61, 0.39]`. -/
def eEx9 : WatchEntry :=
  { question := "Q9", outcomes := ["X", "Y"],
    initialBreakdown := [("X", 0.61), ("Y", 0.39)] }

/-- The re-fetched record of the C3 example: prices `[0.58, 0.42]`, none
above the threshold. -/
def mEx9Res : Market :=
  { id := "mkt9", question := "Q9", slug := "s9", eventSlug := "e9",
    gameStartTime := "t9", outcomes := ["X", "Y"],
    outcomePrices := [0.58, 0.42] }

/-- `get_market_details` always returning the resolved record. -/
def fetchEx9 : String → Option Market := fun _ => some mEx9Res

end Monitor

/-! # Helper lemmas -/

namespace OddsPy

lemma digit_ne {c : Char} (h : c.isDigit = true) :
    c ≠ '.' ∧ c ≠ '/' ∧ c ≠ '+' ∧ c ≠ '-' := by
  refine ⟨?_, ?_, ?_, ?_⟩ <;> (rintro rfl; exact absurd h (by decide))

lemma takeWhile_append_middle {p : Char → Bool} {a b : List Char} {c : Char}
    (ha : ∀ x ∈ a, p x = true) (hc : p c = false) :
    (a ++ c :: b).takeWhile p = a := by
  induction a with
  | nil => simp [List.takeWhile_cons, hc]
  | cons x xs ih =>
    simp only [List.cons_append, List.takeWhile_cons, ha x (by simp)]
    rw [ih (fun y hy => ha y (by simp [hy]))]
    simp

lemma dropWhile_append_middle {p : Char → Bool} {a b : List Char} {c : Char}
    (ha : ∀ x ∈ a, p x = true) (hc : p c = false) :
    (a ++ c :: b).dropWhile p = c :: b := by
  induction a with
  | nil => simp [List.dropWhile_cons, hc]
  | cons x xs ih =>
    simp only [List.cons_append, List.dropWhile_cons, ha x (by simp)]
    exact ih (fun y hy => ha y (by simp [hy]))

lemma matchRest_append_dot {a b : List Char} (ha : ∀ x ∈ a, x.isDigit = true)
    (hb0 : b ≠ []) (hb : ∀ x ∈ b, x.isDigit = true) :
    matchRest (a ++ '.' :: b) = true := by
  induction a with
  | nil =>
    have h1 : b.isEmpty = false := by
      cases b with
      | nil => exact absurd rfl hb0
      | cons y ys => rfl
    have h2 : b.all Char.isDigit = true := List.all_eq_true.mpr hb
    simp [matchRest, h1, h2]
  | cons x xs ih =>
    have hx := ha x (by simp)
    simp only [List.cons_append, matchRest, if_neg (digit_ne hx).1, hx,
      Bool.true_and]
    exact ih (fun y hy => ha y (by simp [hy]))

lemma matchesDecimal_append_dot {a b : List Char} (ha0 : a ≠ [])
    (ha : ∀ x ∈ a, x.isDigit = true) (hb0 : b ≠ [])
    (hb : ∀ x ∈ b, x.isDigit = true) :
    matchesDecimal (a ++ '.' :: b) = true := by
  cases a with
  | nil => exact absurd rfl ha0
  | cons x xs =>
    simp only [List.cons_append, matchesDecimal, ha x (by simp), Bool.true_and]
    exact matchRest_append_dot (fun y hy => ha y (by simp [hy])) hb0 hb

lemma matchRest_append_stop {a b : List Char} {c : Char}
    (ha : ∀ x ∈ a, x.isDigit = true) (hc1 : c ≠ '.') (hc2 : c.isDigit = false) :
    matchRest (a ++ c :: b) = false := by
  induction a with
  | nil => simp [matchRest, hc1, hc2]
  | cons x xs ih =>
    have hx := ha x (by simp)
    simp only [List.cons_append, matchRest, if_neg (digit_ne hx).1, hx,
      Bool.true_and]
    exact ih (fun y hy => ha y (by simp [hy]))

lemma matchesDecimal_append_stop {a b : List Char} {c : Char}
    (ha : ∀ x ∈ a, x.isDigit = true) (hc1 : c ≠ '.') (hc2 : c.isDigit = false) :
    matchesDecimal (a ++ c :: b) = false := by
  cases a with
  | nil => simp [matchesDecimal, hc2]
  | cons x xs =>
    simp only [List.cons_append, matchesDecimal]
    rw [matchRest_append_stop (fun y hy => ha y (by simp [hy])) hc1 hc2]
    simp

lemma no_slash {l : List Char} (h : ∀ x ∈ l, x ≠ '/') :
    l.any (· == '/') = false := by
  induction l with
  | nil => rfl
  | cons x xs ih =>
    have hx : (x == '/') = false := beq_eq_false_iff_ne.mpr (h x (by simp))
    simp [List.any_cons, hx, ih (fun y hy => h y (by simp [hy]))]

lemma parsePyInt_digits {a : List Char} (h0 : a ≠ [])
    (h : ∀ x ∈ a, x.isDigit = true) : parsePyInt a = some (val a) := by
  cases a with
  | nil => exact absurd rfl h0
  | cons x xs =>
    have hx := h x (by simp)
    simp only [parsePyInt, if_neg (digit_ne hx).2.2.2, if_neg (digit_ne hx).2.2.1]
    have hall : (x :: xs).all Char.isDigit = true := List.all_eq_true.mpr h
    simp [hall]

/-- C4: `convert_to_decimal_odds` on each recognized format: a plain
decimal digit string `a.b` gives its denoted value; a fractional string
`n/d` gives `1 + n/d`; American `+v` gives `1 + v/100` and `-v` gives
`1 + 100/v` (`v` the digit string after the sign, so `100/|v|`); in
particular `"4/5" ↦ 1.8`, `"+150" ↦ 2.5`, `"-200" ↦ 1.5`. -/
theorem convert_to_decimal_odds_formats :
    (∀ a b : List Char, a ≠ [] → b ≠ [] →
      (∀ x ∈ a, x.isDigit = true) → (∀ x ∈ b, x.isDigit = true) →
      convert_to_decimal_odds (a ++ '.' :: b) =
        .ok (some ((val a : ℚ) + (val b : ℚ) / 10 ^ b.length))) ∧
    (∀ a b : List Char, a ≠ [] → b ≠ [] →
      (∀ x ∈ a, x.isDigit = true) → (∀ x ∈ b, x.isDigit = true) →
      val b ≠ 0 →
      convert_to_decimal_odds (a ++ '/' :: b) =
        .ok (some (1 + (val a : ℚ) / (val b : ℚ)))) ∧
    (∀ b : List Char, b ≠ [] → (∀ x ∈ b, x.isDigit = true) →
      convert_to_decimal_odds ('+' :: b) =
        .ok (some (1 + (val b : ℚ) / 100))) ∧
    (∀ b : List Char, b ≠ [] → (∀ x ∈ b, x.isDigit = true) → val b ≠ 0 →
      convert_to_decimal_odds ('-' :: b) =
        .ok (some (1 + 100 / (val b : ℚ)))) ∧
    convert_to_decimal_odds "4/5".toList = .ok (some (18 / 10)) ∧
    convert_to_decimal_odds "+150".toList = .ok (some (25 / 10)) ∧
    convert_to_decimal_odds "-200".toList = .ok (some (15 / 10)) := by
  refine ⟨?_, ?_, ?_, ?_, ?_, ?_, ?_⟩
  · intro a b ha0 hb0 ha hb
    have hdots : ∀ x ∈ a, (x != '.') = true :=
      fun x hx => bne_iff_ne.mpr (digit_ne (ha x hx)).1
    rw [convert_to_decimal_odds, if_pos (matchesDecimal_append_dot ha0 ha hb0 hb)]
    rw [decValue, takeWhile_append_middle hdots (by decide),
      dropWhile_append_middle hdots (by decide)]
    simp
  · intro a b ha0 hb0 ha hb hdz
    have hslash : ∀ x ∈ a, (x != '/') = true :=
      fun x hx => bne_iff_ne.mpr (digit_ne (ha x hx)).2.1
    have hdz2 : ¬ ((val b : ℤ) = 0) := by simpa using hdz
    rw [convert_to_decimal_odds,
      if_neg (by rw [matchesDecimal_append_stop ha (by decide) (by decide)]; simp),
      if_pos (by simp [List.any_eq_true])]
    rw [takeWhile_append_middle hslash (by decide),
      dropWhile_append_middle hslash (by decide)]
    simp only [List.drop_one, List.tail_cons]
    rw [no_slash (fun x hx => (digit_ne (hb x hx)).2.1),
      parsePyInt_digits ha0 ha, parsePyInt_digits hb0 hb]
    simp [hdz2]
  · intro b hb0 hb
    have hmd : matchesDecimal ('+' :: b) = false := by simp [matchesDecimal]
    have hs : ('+' :: b).any (· == '/') = false :=
      no_slash (by
        intro x hx
        rcases List.mem_cons.mp hx with rfl | hx
        · decide
        · exact (digit_ne (hb x hx)).2.1)
    rw [convert_to_decimal_odds]
    simp only [hmd, hs, Bool.false_eq_true, if_false, List.head?_cons,
      List.drop_one, List.tail_cons, parsePyInt_digits hb0 hb]
    simp
  · intro b hb0 hb hdz
    have hmd : matchesDecimal ('-' :: b) = false := by simp [matchesDecimal]
    have hdz2 : ¬ ((val b : ℤ) = 0) := by simpa using hdz
    have hs : ('-' :: b).any (· == '/') = false :=
      no_slash (by
        intro x hx
        rcases List.mem_cons.mp hx with rfl | hx
        · decide
        · exact (digit_ne (hb x hx)).2.1)
    rw [convert_to_decimal_odds]
    simp only [hmd, hs, Bool.false_eq_true, if_false, List.head?_cons,
      List.drop_one, List.tail_cons, parsePyInt_digits hb0 hb]
    simp [hdz2]
  · with_unfolding_all decide
  · with_unfolding_all decide
  · with_unfolding_all decide

/-- Witness for C4: each universally quantified part applied at a concrete
digit string. -/
theorem convert_to_decimal_odds_formats_witness :
    convert_to_decimal_odds ['1', '.', '5'] =
      .ok (some ((val ['1'] : ℚ) + (val ['5'] : ℚ) / 10 ^ (['5'] : List Char).length)) ∧
    convert_to_decimal_odds ['4', '/', '5'] =
      .ok (some (1 + (val ['4'] : ℚ) / (val ['5'] : ℚ))) ∧
    convert_to_decimal_odds ['+', '7'] = .ok (some (1 + (val ['7'] : ℚ) / 100)) ∧
    convert_to_decimal_odds ['-', '2'] = .ok (some (1 + 100 / (val ['2'] : ℚ))) := by
  refine ⟨?_, ?_, ?_, ?_⟩
  · exact convert_to_decimal_odds_formats.1 ['1'] ['5']
      (by decide) (by decide) (by decide) (by decide)
  · exact convert_to_decimal_odds_formats.2.1 ['4'] ['5']
      (by decide) (by decide) (by decide) (by decide) (by decide)
  · exact convert_to_decimal_odds_formats.2.2.1 ['7'] (by decide) (by decide)
  · exact convert_to_decimal_odds_formats.2.2.2.1 ['2']
      (by decide) (by decide) (by decide)

/-- C5, counterexample: at decimal odds `1.0` the code does not return a
missing value — `calculate_implied_probability (some 1) = some 1`, although
`1.0 > 1.0` fails (the code's guard is Python truthiness, not `> 1.0`). -/
theorem calculate_implied_probability_one_not_missing :
    ¬ ((1 : ℚ) > 1) ∧
    calculate_implied_probability (some 1) = some 1 ∧
    some (1 : ℚ) ≠ (none : Option ℚ) := by
  refine ⟨by norm_num, by with_unfolding_all decide, by simp⟩

/-- C5, amended: `calculate_implied_probability` returns `1/d` for every
non-missing, nonzero `d` (whether or not `d > 1`), and a missing value
exactly when `d` is missing or zero; `implied_probability(2.0) = 0.5` and
`implied_probability(1.0) = 1.0`. -/
theorem calculate_implied_probability_spec :
    (∀ d : ℚ, d ≠ 0 → calculate_implied_probability (some d) = some (1 / d)) ∧
    calculate_implied_probability none = none ∧
    calculate_implied_probability (some 0) = none ∧
    calculate_implied_probability (some 2) = some (1 / 2) ∧
    calculate_implied_probability (some 1) = some 1 := by
  refine ⟨?_, rfl, by simp [calculate_implied_probability], ?_, ?_⟩
  · intro d hd
    simp [calculate_implied_probability, hd]
  · norm_num [calculate_implied_probability]
  · norm_num [calculate_implied_probability]

/-- Witness for C5's amended statement: the universal part at `d = 2`. -/
theorem calculate_implied_probability_spec_witness :
    calculate_implied_probability (some 2) = some (1 / 2) :=
  calculate_implied_probability_spec.1 2 (by norm_num)

end OddsPy

namespace OddsPy

lemma meanOpt_insert_none (x y : List (Option ℚ)) :
    meanOpt (x ++ none :: y) = meanOpt (x ++ y) := by
  simp [meanOpt, List.reduceOption_append, List.reduceOption_cons_of_none]

lemma convCol_append_middle {f : OddsQuote → List Char}
    {pre post : List OddsQuote} {lp ls : List (Option ℚ)} {q : OddsQuote}
    (h1 : convCol f pre = .ok lp) (h2 : convCol f post = .ok ls)
    (hq : convert_to_decimal_odds (f q) = .ok none) :
    convCol f (pre ++ q :: post) = .ok (lp ++ none :: ls) := by
  induction pre generalizing lp with
  | nil =>
    simp only [convCol] at h1
    cases h1
    simp [convCol, hq, h2]
  | cons r rest ih =>
    simp only [convCol] at h1 ⊢
    cases hcv : convert_to_decimal_odds (f r) with
    | error e => rw [hcv] at h1; exact absurd h1 (by simp)
    | ok v =>
      rw [hcv] at h1
      cases hcc : convCol f rest with
      | error e => rw [hcc] at h1; exact absurd h1 (by simp)
      | ok vs =>
        rw [hcc] at h1
        simp only at h1
        cases h1
        simp only [List.append_eq]
        rw [ih hcc]
        simp

/-- C6: an odds string that triggers none of the recognized-format branches
(the decimal regex, a slash, a leading `+` or `-`) makes
`convert_to_decimal_odds` return `None` without raising; and a quote whose
odds convert to `None` on both sides leaves `analyze_odds` running to a
result whose averaged percentages are exactly those computed from the
remaining quotes (the missing data point is skipped, not fatal). -/
theorem convert_unrecognized_returns_none :
    (∀ s : List Char, matchesDecimal s = false → s.any (· == '/') = false →
      s.head? ≠ some '+' → s.head? ≠ some '-' →
      convert_to_decimal_odds s = .ok none) ∧
    (∀ (ta tb : String) (pre post : List OddsQuote) (q : OddsQuote)
      (lpa lsa lpb lsb : List (Option ℚ)),
      convert_to_decimal_odds q.team_a_odds = .ok none →
      convert_to_decimal_odds q.team_b_odds = .ok none →
      convCol (fun r => r.team_a_odds) pre = .ok lpa →
      convCol (fun r => r.team_a_odds) post = .ok lsa →
      convCol (fun r => r.team_b_odds) pre = .ok lpb →
      convCol (fun r => r.team_b_odds) post = .ok lsb →
      ∃ res, analyze_odds ta tb (pre ++ q :: post) = .ok (some res) ∧
        res.team_a_win_pct =
          (meanOpt ((lpa ++ lsa).map calculate_implied_probability)).map
            (fun a => round2 (a * 100)) ∧
        res.team_b_win_pct =
          (meanOpt ((lpb ++ lsb).map calculate_implied_probability)).map
            (fun b => round2 (b * 100))) := by
  constructor
  · intro s h1 h2 h3 h4
    rw [convert_to_decimal_odds]
    simp [h1, h2, h3, h4]
  · intro ta tb pre post q lpa lsa lpb lsb hqa hqb hpa hsa hpb hsb
    have hca := convCol_append_middle hpa hsa hqa
    have hcb := convCol_append_middle hpb hsb hqb
    have havg : avgProbs (pre ++ q :: post) =
        .ok (meanOpt ((lpa ++ lsa).map calculate_implied_probability),
             meanOpt ((lpb ++ lsb).map calculate_implied_probability)) := by
      rw [avgProbs, hca, hcb]
      simp only [List.map_append, List.map_cons, calculate_implied_probability]
      rw [meanOpt_insert_none, meanOpt_insert_none]
    have hne : (pre ++ q :: post).isEmpty = false := by
      cases pre <;> rfl
    rw [analyze_odds, hne]
    simp only [Bool.false_eq_true, if_false]
    rw [havg]
    refine ⟨_, rfl, ?_, ?_⟩
    · generalize meanOpt ((lpa ++ lsa).map calculate_implied_probability) = o
      cases o <;> rfl
    · generalize meanOpt ((lpb ++ lsb).map calculate_implied_probability) = o
      cases o <;> rfl

/-- Witness for C6: the unrecognized string `"abc"` inside a two-quote
batch. -/
theorem convert_unrecognized_returns_none_witness :
    convert_to_decimal_odds "abc".toList = .ok none ∧
    ∃ res, analyze_odds "A" "B" ([qEx1] ++ qEx2 :: []) = .ok (some res) ∧
      res.team_a_win_pct =
        (meanOpt (([some (19/10)] : List (Option ℚ)).map
          calculate_implied_probability)).map (fun a => round2 (a * 100)) ∧
      res.team_b_win_pct =
        (meanOpt (([some (21/10)] : List (Option ℚ)).map
          calculate_implied_probability)).map (fun b => round2 (b * 100)) := by
  constructor
  · exact convert_unrecognized_returns_none.1 "abc".toList
      (by decide) (by decide) (by decide) (by decide)
  · exact convert_unrecognized_returns_none.2 "A" "B" [qEx1] [] qEx2
      [some (19/10)] [] [some (21/10)] []
      (by with_unfolding_all decide) (by with_unfolding_all decide)
      (by with_unfolding_all decide) (by with_unfolding_all decide)
      (by with_unfolding_all decide) (by with_unfolding_all decide)

end OddsPy

namespace OddsPy

lemma le_roundHalfEven (q : ℚ) : ⌊q⌋ ≤ roundHalfEven q := by
  rw [roundHalfEven]
  split_ifs <;> omega

lemma roundHalfEven_le (q : ℚ) : roundHalfEven q ≤ ⌊q⌋ + 1 := by
  rw [roundHalfEven]
  split_ifs <;> omega

lemma roundHalfEven_mono {x y : ℚ} (h : x ≤ y) :
    roundHalfEven x ≤ roundHalfEven y := by
  have hfl : ⌊x⌋ ≤ ⌊y⌋ := Int.floor_mono h
  rcases lt_or_eq_of_le hfl with hlt | heq
  · calc roundHalfEven x ≤ ⌊x⌋ + 1 := roundHalfEven_le x
      _ ≤ ⌊y⌋ := by omega
      _ ≤ roundHalfEven y := le_roundHalfEven y
  · have hx : x - ⌊x⌋ ≤ y - ⌊y⌋ := by
      rw [← heq]
      exact sub_le_sub_right h _
    rw [roundHalfEven, roundHalfEven, ← heq]
    split_ifs <;> first
      | omega
      | linarith

lemma round2_mono {x y : ℚ} (h : x ≤ y) : round2 x ≤ round2 y := by
  have h1 : roundHalfEven (100 * x) ≤ roundHalfEven (100 * y) :=
    roundHalfEven_mono (by linarith)
  have hc : ((roundHalfEven (100 * x) : ℚ)) ≤ (roundHalfEven (100 * y) : ℚ) := by
    exact_mod_cast h1
  rw [round2, round2]
  linarith

/-- C9: in `analyze_odds`, equal average implied probabilities predict
`team_b` (the comparison favouring `team_a` is strict), and whenever both
rounded team percentages exist, the reported `win_probability` is the
larger of the two. -/
theorem analyze_odds_tie_goes_to_team_b :
    ∀ (ta tb : String) (data : List OddsQuote) (a b : Option ℚ)
      (r : AnalysisResult),
      avgProbs data = .ok (a, b) →
      analyze_odds ta tb data = .ok (some r) →
      (a = b → r.predicted_winner = tb) ∧
      (∀ pa pb, r.team_a_win_pct = some pa → r.team_b_win_pct = some pb →
        r.win_probability = some (max pa pb)) := by
  intro ta tb data a b r havg hres
  have hne : data.isEmpty = false := by
    cases hd : data with
    | nil =>
      subst hd
      rw [analyze_odds] at hres
      simp at hres
    | cons x xs => rfl
  rw [analyze_odds, hne] at hres
  simp only [Bool.false_eq_true, if_false] at hres
  rw [havg] at hres
  simp only [Except.ok.injEq, Option.some.injEq] at hres
  subst hres
  constructor
  · rintro rfl
    cases a with
    | none => rfl
    | some x => simp
  · intro pa pb hpa hpb
    cases a with
    | none => simp at hpa
    | some x =>
      cases b with
      | none => simp at hpb
      | some y =>
        simp only [Option.map_some] at hpa hpb
        cases hpa
        cases hpb
        by_cases hxy : y < x
        · have hle : round2 (y * 100) ≤ round2 (x * 100) :=
            round2_mono (by linarith)
          simp [hxy, max_eq_left hle]
        · have hyx : x ≤ y := le_of_not_gt hxy
          have hle : round2 (x * 100) ≤ round2 (y * 100) :=
            round2_mono (by linarith)
          simp [hxy, max_eq_right hle]

/-- Witness for C9: a batch quoting `2.0` on both sides ties the averages;
the prediction goes to team "B" with `win_probability = 50`. -/
theorem analyze_odds_tie_goes_to_team_b_witness :
    rEx.predicted_winner = "B" ∧ rEx.win_probability = some (max 50 50) := by
  have h := analyze_odds_tie_goes_to_team_b "A" "B" dataEx
    (some (1/2)) (some (1/2)) rEx
    (by with_unfolding_all decide) (by with_unfolding_all decide)
  exact ⟨h.1 rfl, h.2 50 50 (by with_unfolding_all decide)
    (by with_unfolding_all decide)⟩

end OddsPy

namespace Monitor

lemma findStep_id {t : String} {m : Market} (h : matchesTerm t m = false)
    (acc : List Market) : findStep t.toLower acc m = acc := by
  simp only [matchesTerm] at h
  rcases Bool.or_eq_false_iff.mp h with ⟨h1, h2⟩
  simp only [findStep]
  simp only [h1, Bool.false_eq_true, if_false]
  cases hvs : substrOf " vs " t.toLower with
  | false => simp
  | true =>
    rw [hvs] at h2
    simp only [Bool.true_and] at h2
    simp only [hvs, h2]
    simp

lemma foldl_findStep_id {t : String} :
    ∀ (ms : List Market), (∀ m ∈ ms, matchesTerm t m = false) →
      ∀ acc, ms.foldl (findStep t.toLower) acc = acc := by
  intro ms
  induction ms with
  | nil => intro _ acc; rfl
  | cons m rest ih =>
    intro h acc
    rw [List.foldl_cons, findStep_id (h m (by simp))]
    exact ih (fun x hx => h x (by simp [hx])) acc

/-- C8: when a search term is supplied that matches none of a non-empty
discovered market list, the set of markets used thereafter is the original
unfiltered list — `main` falls back instead of proceeding with the empty
`find_match` result. -/
theorem search_term_fallback :
    ∀ (markets : List Market) (t : String), markets ≠ [] →
      (∀ m ∈ markets, matchesTerm t m = false) →
      selectMarkets markets (some t) = markets := by
  intro markets t _ h
  have hfm : find_match markets t = [] := by
    rw [find_match]
    exact foldl_findStep_id markets h []
  rw [selectMarkets]
  simp [hfm]

/-- Witness for C8: one market and the term `"zzz"`, which matches
nothing. -/
theorem search_term_fallback_witness :
    selectMarkets [mEx1] (some "zzz") = [mEx1] :=
  search_term_fallback [mEx1] "zzz" (by simp)
    (by with_unfolding_all decide)

lemma pollCycle_watch_subset (fetch : String → Option Market)
    (stale : Notification) :
    ∀ w : List (String × WatchEntry),
      (pollCycle fetch stale w).1.map Prod.fst ⊆ w.map Prod.fst := by
  intro w
  induction w with
  | nil => simp [pollCycle]
  | cons he rest ih =>
    obtain ⟨id, e⟩ := he
    rw [pollCycle]
    cases hf : fetch id with
    | none =>
      simp only [List.map_cons]
      exact List.cons_subset_cons id ih
    | some m =>
      by_cases hp : highProb m.outcomes m.outcomePrices
      · simp only [hp, if_true, List.map_cons]
        exact List.cons_subset_cons id ih
      · simp only [hp, Bool.false_eq_true, if_false, List.map_cons]
        exact List.Subset.trans ih (List.subset_cons_self id _)

lemma pollCycle_watch_len (fetch : String → Option Market)
    (stale : Notification) :
    ∀ w : List (String × WatchEntry),
      (pollCycle fetch stale w).1.length ≤ w.length := by
  intro w
  induction w with
  | nil => simp [pollCycle]
  | cons he rest ih =>
    obtain ⟨id, e⟩ := he
    rw [pollCycle]
    cases hf : fetch id with
    | none => simpa using ih
    | some m =>
      by_cases hp : highProb m.outcomes m.outcomePrices
      · simp only [hp, if_true]
        simpa using ih
      · simp only [hp, Bool.false_eq_true, if_false]
        simp only [List.length_cons]
        omega

/-- C10: one pass of the monitoring loop never adds a watch entry — the
ids watched after a cycle are a subset of the ids watched before it, and
the watch set size is non-increasing. -/
theorem watch_set_nonincreasing :
    ∀ (fetch : String → Option Market) (stale : Notification)
      (w : List (String × WatchEntry)),
      (pollCycle fetch stale w).1.map Prod.fst ⊆ w.map Prod.fst ∧
      (pollCycle fetch stale w).1.length ≤ w.length :=
  fun fetch stale w =>
    ⟨pollCycle_watch_subset fetch stale w, pollCycle_watch_len fetch stale w⟩

end Monitor

namespace Monitor

lemma pollCycle_keeps_entry {fetch : String → Option Market}
    {stale : Notification} {id : String} {e : WatchEntry}
    (hf : fetch id = none) :
    ∀ w : List (String × WatchEntry), (id, e) ∈ w →
      (id, e) ∈ (pollCycle fetch stale w).1 := by
  intro w
  induction w with
  | nil => intro h; simp at h
  | cons he rest ih =>
    obtain ⟨id2, e2⟩ := he
    intro hmem
    rcases List.mem_cons.mp hmem with heq | hmem2
    · obtain ⟨h1, h2⟩ := Prod.mk.inj heq.symm
      subst h1
      subst h2
      rw [pollCycle, hf]
      simp
    · have htail := ih hmem2
      rw [pollCycle]
      cases hf2 : fetch id2 with
      | none => simpa using Or.inr htail
      | some m2 =>
        by_cases hp : highProb m2.outcomes m2.outcomePrices
        · simp only [hp, if_true]
          simpa using Or.inr htail
        · simp only [hp, Bool.false_eq_true, if_false]
          exact htail

lemma pollCycle_no_msgs_for_failed {fetch : String → Option Market}
    {stale : Notification} {id : String} (hf : fetch id = none) :
    ∀ w : List (String × WatchEntry),
      (pollCycle fetch stale w).2.filter (fun p => p.1 == id) = [] := by
  intro w
  induction w with
  | nil => simp [pollCycle]
  | cons he rest ih =>
    obtain ⟨id2, e2⟩ := he
    rw [pollCycle]
    cases hf2 : fetch id2 with
    | none => exact ih
    | some m2 =>
      have hne : (id2 == id) = false := by
        refine beq_eq_false_iff_ne.mpr ?_
        intro heq
        rw [heq, hf] at hf2
        exact Option.noConfusion hf2
      by_cases hp : highProb m2.outcomes m2.outcomePrices
      · simp only [hp, if_true, List.filter_cons, hne]
        simpa using ih
      · simp only [hp, Bool.false_eq_true, if_false, List.filter_cons, hne]
        simpa using ih

/-- C7: a failed re-fetch of a watched market keeps its entry in the watch
set unchanged to be retried next cycle, and sends nothing for it; a cycle
in which every fetch fails leaves the whole watch set untouched and sends
no message at all. -/
theorem fetch_failure_keeps_entry :
    (∀ (fetch : String → Option Market) (stale : Notification)
      (w : List (String × WatchEntry)) (id : String) (e : WatchEntry),
      fetch id = none → (id, e) ∈ w →
      (id, e) ∈ (pollCycle fetch stale w).1 ∧
      (pollCycle fetch stale w).2.filter (fun p => p.1 == id) = []) ∧
    (∀ (stale : Notification) (w : List (String × WatchEntry)),
      pollCycle (fun _ => none) stale w = (w, [])) := by
  constructor
  · intro fetch stale w id e hf hmem
    exact ⟨pollCycle_keeps_entry hf w hmem, pollCycle_no_msgs_for_failed hf w⟩
  · intro stale w
    induction w with
    | nil => rfl
    | cons he rest ih =>
      obtain ⟨id, e⟩ := he
      rw [pollCycle, ih]

/-- Witness for C7: a one-entry watch set with a failing fetch. -/
theorem fetch_failure_keeps_entry_witness :
    ("mkt9", eEx9) ∈
      (pollCycle (fun _ => none) (alertFor mEx1) [("mkt9", eEx9)]).1 ∧
    (pollCycle (fun _ => none) (alertFor mEx1) [("mkt9", eEx9)]).2.filter
      (fun p => p.1 == "mkt9") = [] :=
  fetch_failure_keeps_entry.1 (fun _ => none) (alertFor mEx1)
    [("mkt9", eEx9)] "mkt9" eEx9 rfl (by simp)

end Monitor

namespace Monitor

lemma lookup_append_of_none {β : Type _} {l1 : List (String × β)}
    (l2 : List (String × β)) {k : String} (h : l1.lookup k = none) :
    (l1 ++ l2).lookup k = l2.lookup k := by
  induction l1 with
  | nil => rfl
  | cons p rest ih =>
    obtain ⟨a, b⟩ := p
    rw [List.cons_append, List.lookup_cons]
    rw [List.lookup_cons] at h
    cases hk : (k == a) with
    | true =>
      simp only [hk] at h
      exact absurd h (by simp)
    | false =>
      simp only [hk] at h ⊢
      exact ih h

lemma highProb_iff {m : Market} (h1 : m.outcomes ≠ [])
    (h2 : m.outcomePrices ≠ []) (h3 : m.outcomes.length = m.outcomePrices.length) :
    highProb m.outcomes m.outcomePrices = true ↔
      ∃ p ∈ m.outcomePrices, threshold < p := by
  have ho : m.outcomes.isEmpty = false := by
    rcases hh : m.outcomes with _ | ⟨x, xs⟩
    · exact absurd hh h1
    · rfl
  have hp : m.outcomePrices.isEmpty = false := by
    rcases hh : m.outcomePrices with _ | ⟨x, xs⟩
    · exact absurd hh h2
    · rfl
  simp [highProb, wellFormed, ho, hp, h3, List.any_eq_true]

/-- C1: during the initial scan, a (well-formed, not yet watched) market is
added to the watch set with an alert sent — the alert carrying its
question, game start time and full probability breakdown — exactly when
some parsed outcome price strictly exceeds the literal threshold `0.60`;
and on the two-market example with prices `[0.65, 0.35]` and
`[0.55, 0.45]`, only the first is watched afterwards and the only message
sent is its alert. -/
theorem initial_scan_alert_iff :
    (∀ (acc : List (String × WatchEntry) × List Notification) (m : Market),
      m.outcomes ≠ [] → m.outcomePrices ≠ [] →
      m.outcomes.length = m.outcomePrices.length →
      acc.1.lookup m.id = none →
      ((((scanStep acc m).1.lookup m.id).isSome = true ∧
          (scanStep acc m).2 = acc.2 ++ [alertFor m] ∧
          (alertFor m).question = m.question ∧
          (alertFor m).gameStartTime = some m.gameStartTime ∧
          (alertFor m).currentBreakdown =
            some (breakdown m.outcomes m.outcomePrices)) ↔
        ∃ p ∈ m.outcomePrices, threshold < p)) ∧
    (initialScan [mEx1, mEx2]).1.map Prod.fst = ["mkt1"] ∧
    (initialScan [mEx1, mEx2]).2 = [alertFor mEx1] := by
  refine ⟨?_, ?_, ?_⟩
  · intro acc m h1 h2 h3 h4
    rw [← highProb_iff h1 h2 h3]
    constructor
    · rintro ⟨hsome, -⟩
      cases hhp : highProb m.outcomes m.outcomePrices with
      | true => rfl
      | false =>
        rw [scanStep, if_neg (by rw [h4]; simp), if_neg (by rw [hhp]; simp)]
          at hsome
        rw [h4] at hsome
        exact absurd hsome (by simp)
    · intro hhp
      rw [scanStep, if_neg (by rw [h4]; simp), if_pos hhp]
      refine ⟨?_, rfl, rfl, rfl, rfl⟩
      rw [lookup_append_of_none _ h4]
      simp
  · with_unfolding_all decide
  · with_unfolding_all decide

/-- Witness for C1: the universally quantified part applied to the empty
scan state and the `[0.65, 0.35]` market. -/
theorem initial_scan_alert_iff_witness :
    (((scanStep (([], []) : List (String × WatchEntry) × List Notification)
          mEx1).1.lookup mEx1.id).isSome = true ∧
        (scanStep (([], []) : List (String × WatchEntry) × List Notification)
            mEx1).2 = [] ++ [alertFor mEx1] ∧
        (alertFor mEx1).question = mEx1.question ∧
        (alertFor mEx1).gameStartTime = some mEx1.gameStartTime ∧
        (alertFor mEx1).currentBreakdown =
          some (breakdown mEx1.outcomes mEx1.outcomePrices)) ↔
      ∃ p ∈ mEx1.outcomePrices, threshold < p :=
  initial_scan_alert_iff.1 ([], []) mEx1 (by decide) (by decide)
    (by decide) rfl

end Monitor

namespace Monitor

lemma pollCycle_msg_src (fetch : String → Option Market)
    (stale : Notification) :
    ∀ (w : List (String × WatchEntry)) (p : String × Notification),
      p ∈ (pollCycle fetch stale w).2 → p.1 ∈ w.map Prod.fst := by
  intro w
  induction w with
  | nil => intro p hp; simp [pollCycle] at hp
  | cons he rest ih =>
    obtain ⟨id, e⟩ := he
    intro p hp
    rw [pollCycle] at hp
    cases hf : fetch id with
    | none =>
      rw [hf] at hp
      simp only [List.map_cons]
      exact List.mem_cons_of_mem id (ih p hp)
    | some m =>
      rw [hf] at hp
      by_cases hhp : highProb m.outcomes m.outcomePrices
      · simp only [hhp, if_true] at hp
        rcases List.mem_cons.mp hp with heq | hmem
        · subst heq; simp
        · simp only [List.map_cons]
          exact List.mem_cons_of_mem id (ih p hmem)
      · simp only [hhp, Bool.false_eq_true, if_false] at hp
        rcases List.mem_cons.mp hp with heq | hmem
        · subst heq; simp
        · simp only [List.map_cons]
          exact List.mem_cons_of_mem id (ih p hmem)

lemma pollCycle_no_msgs_of_absent (fetch : String → Option Market)
    (stale : Notification) (w : List (String × WatchEntry)) {id : String}
    (h : id ∉ w.map Prod.fst) :
    (pollCycle fetch stale w).2.filter (fun p => p.1 == id) = [] := by
  rw [List.filter_eq_nil_iff]
  intro p hp
  have hsrc := pollCycle_msg_src fetch stale w p hp
  simp only [beq_iff_eq]
  intro heq
  rw [heq] at hsrc
  exact h hsrc

lemma pollCycle_resolves {fetch : String → Option Market}
    {stale : Notification} {id : String} {e : WatchEntry} {m : Market}
    (hf : fetch id = some m)
    (hhp : highProb m.outcomes m.outcomePrices = false) :
    ∀ w : List (String × WatchEntry), (id, e) ∈ w →
      (w.map Prod.fst).count id = 1 →
      id ∉ (pollCycle fetch stale w).1.map Prod.fst ∧
      (pollCycle fetch stale w).2.filter (fun p => p.1 == id) =
        [(id, resolvedFor id e m)] := by
  intro w
  induction w with
  | nil => intro h; simp at h
  | cons he rest ih =>
    obtain ⟨id2, e2⟩ := he
    intro hmem hcount
    by_cases hid : id2 = id
    · subst hid
      have hrest : (rest.map Prod.fst).count id2 = 0 := by
        rw [List.map_cons, List.count_cons] at hcount
        simpa using hcount
      have hnotin : id2 ∉ rest.map Prod.fst := List.count_eq_zero.mp hrest
      have he2 : e2 = e := by
        rcases List.mem_cons.mp hmem with heq | hmem2
        · exact (Prod.mk.inj heq.symm).2
        · exact absurd (List.mem_map_of_mem Prod.fst hmem2) hnotin
      subst he2
      rw [pollCycle, hf]
      simp only [hhp, Bool.false_eq_true, if_false]
      constructor
      · intro hin
        exact hnotin (pollCycle_watch_subset fetch stale rest hin)
      · rw [List.filter_cons, pollCycle_no_msgs_of_absent fetch stale rest hnotin]
        simp
    · have hmem2 : (id, e) ∈ rest := by
        rcases List.mem_cons.mp hmem with heq | hmem2
        · exact absurd ((Prod.mk.inj heq).1).symm hid
        · exact hmem2
      have hne : (id == id2) = false :=
        beq_eq_false_iff_ne.mpr (fun h => hid h.symm)
      have hne2 : (id2 == id) = false := beq_eq_false_iff_ne.mpr hid
      have hcount2 : (rest.map Prod.fst).count id = 1 := by
        rw [List.map_cons, List.count_cons] at hcount
        simpa [hne, hid] using hcount
      obtain ⟨ihw, ihm⟩ := ih hmem2 hcount2
      rw [pollCycle]
      cases hf2 : fetch id2 with
      | none =>
        refine ⟨?_, ihm⟩
        simp only [List.map_cons]
        intro hin
        rcases List.mem_cons.mp hin with heq | hin2
        · exact hid heq.symm
        · exact ihw hin2
      | some m2 =>
        by_cases hp2 : highProb m2.outcomes m2.outcomePrices
        · simp only [hp2, if_true]
          constructor
          · simp only [List.map_cons]
            intro hin
            rcases List.mem_cons.mp hin with heq | hin2
            · exact hid heq.symm
            · exact ihw hin2
          · rw [List.filter_cons]
            simp only [hne2, Bool.false_eq_true, if_false]
            exact ihm
        · simp only [hp2, Bool.false_eq_true, if_false]
          refine ⟨ihw, ?_⟩
          rw [List.filter_cons]
          simp only [hne2, Bool.false_eq_true, if_false]
          exact ihm

/-- C3: when the re-fetch of a watched market (watched under a unique id)
succeeds and no parsed price exceeds the threshold any more, the cycle
removes the entry from the watch set and the only message the cycle sends
for that market is one "resolved" notification carrying the alert-time
breakdown stored in its watch entry and the current breakdown; any later
cycle, whose watch set no longer holds the id, sends nothing for it. -/
theorem resolved_market_removed :
    ∀ (fetch : String → Option Market) (stale : Notification)
      (w : List (String × WatchEntry)) (id : String) (e : WatchEntry)
      (m : Market),
      (id, e) ∈ w → (w.map Prod.fst).count id = 1 →
      fetch id = some m → highProb m.outcomes m.outcomePrices = false →
      (id ∉ (pollCycle fetch stale w).1.map Prod.fst) ∧
      ((pollCycle fetch stale w).2.filter (fun p => p.1 == id) =
        [(id, resolvedFor id e m)]) ∧
      (resolvedFor id e m).kind = .resolved ∧
      (resolvedFor id e m).initialBreakdown = some e.initialBreakdown ∧
      (wellFormed m.outcomes m.outcomePrices = true →
        (resolvedFor id e m).currentBreakdown =
          some (breakdown m.outcomes m.outcomePrices)) ∧
      (∀ (fetch2 : String → Option Market) (stale2 : Notification)
        (w2 : List (String × WatchEntry)), id ∉ w2.map Prod.fst →
        (pollCycle fetch2 stale2 w2).2.filter (fun p => p.1 == id) = []) := by
  intro fetch stale w id e m hmem hcount hf hhp
  obtain ⟨h1, h2⟩ := pollCycle_resolves hf hhp w hmem hcount
  refine ⟨h1, h2, rfl, rfl, ?_, ?_⟩
  · intro hwf
    simp [resolvedFor, hwf]
  · intro fetch2 stale2 w2 hw2
    exact pollCycle_no_msgs_of_absent fetch2 stale2 w2 hw2

/-- Witness for C3: a watched market re-fetched at prices `[0.58, 0.42]` is
removed, with exactly its resolved message sent. -/
theorem resolved_market_removed_witness :
    ("mkt9" ∉
      (pollCycle fetchEx9 (alertFor mEx1) [("mkt9", eEx9)]).1.map Prod.fst) ∧
    ((pollCycle fetchEx9 (alertFor mEx1) [("mkt9", eEx9)]).2.filter
      (fun p => p.1 == "mkt9") = [("mkt9", resolvedFor "mkt9" eEx9 mEx9Res)]) := by
  have h := resolved_market_removed fetchEx9 (alertFor mEx1) [("mkt9", eEx9)]
    "mkt9" eEx9 mEx9Res (by simp) (by with_unfolding_all decide) rfl
    (by with_unfolding_all decide)
  exact ⟨h.1, h.2.1⟩

end Monitor

namespace Monitor

/-- C2, behaviour at a failing input: after an initial scan that alerted
`mEx1` (prices `[0.65, 0.35]`) and then `mEx3` (prices `[0.70, 0.30]`), a
poll cycle in which `mkt1` re-fetches at `[0.66, 0.34]` — still above the
threshold — keeps `mkt1` watched, but the message sent while processing
`mkt1` is the leaked `alert_message` from the initial scan re-sent
verbatim (line 589 of cricket_odds3.py): it is the initial alert of
`mkt3`, naming `mkt3` and carrying `mkt3`'s alert-time breakdown, not a
"still high" message with `mkt1`'s latest probability breakdown. -/
theorem still_high_resends_stale_alert :
    (initialScan [mEx1, mEx3]).2.getLast? = some (alertFor mEx3) ∧
    (pollCycle fetchEx (alertFor mEx3) (initialScan [mEx1, mEx3]).1).2 =
      [("mkt1", alertFor mEx3)] ∧
    "mkt1" ∈ (pollCycle fetchEx (alertFor mEx3)
      (initialScan [mEx1, mEx3]).1).1.map Prod.fst ∧
    (alertFor mEx3).marketId ≠ "mkt1" ∧
    (alertFor mEx3).currentBreakdown ≠
      some (breakdown mEx1Latest.outcomes mEx1Latest.outcomePrices) := by
  with_unfolding_all decide

end Monitor
